import Mathlib

/-!
Verification of the JSX-to-createElement transformer
(src/transformers/JSXTransformer.ts).

The pure string formatters (formatJSXTextLiteral, formatJSXTextReplacement,
formatJSXStringValueLiteral, startsWithLowerCase) and the lazy line-number
cursor (getLineNumberForIndex) are translated directly from the source file.
The token-level methods (processJSXTag, processTagIntro, processProps,
processChildren, processChildTextElement, processStringPropValue) are
translated from the source as fuel-indexed functions over an explicit
token-processor state.  The collaborators that live outside the provided
source tree (TokenProcessor, RootTransformer, NameManager, ImportProcessor)
are modelled from the specification; each such definition carries a doc
comment starting with Modelled from the spec.
-/

/-- Hex digit used by the model of the JavaScript builtin JSON.stringify
for the generic control-character escape. -/
def jsonHexDigit (n : Nat) : Char :=
  if n < 10 then Char.ofNat (48 + n) else Char.ofNat (87 + n)

/-- Model of the JavaScript builtin JSON.stringify applied to a string:
the escape sequence emitted for one character. -/
def jsonEscapeChar (c : Char) : String :=
  if c = '"' then "\\\""
  else if c = '\\' then "\\\\"
  else if c = '\n' then "\\n"
  else if c = '\r' then "\\r"
  else if c = '\t' then "\\t"
  else if c = Char.ofNat 8 then "\\b"
  else if c = Char.ofNat 12 then "\\f"
  else if c.toNat < 32 then
    "\\u00" ++ String.singleton (jsonHexDigit (c.toNat / 16)) ++
      String.singleton (jsonHexDigit (c.toNat % 16))
  else String.singleton c

/-- Model of the JavaScript builtin JSON.stringify applied to a string:
quote, escape every character, quote. -/
def jsonStringify (s : String) : String :=
  "\"" ++ s.data.foldl (fun acc c => acc ++ jsonEscapeChar c) "" ++ "\""

/-- State of the character loop of formatJSXTextLiteral: the accumulated
result, the pending whitespace, the isInInitialLineWhitespace flag and the
seenNonWhitespace flag, exactly the four local variables of the source. -/
structure TextFmtState where
  result : String
  whitespace : String
  isInInitialLineWhitespace : Bool
  seenNonWhitespace : Bool
deriving DecidableEq, Repr

/-- One iteration of the character loop of formatJSXTextLiteral
(source lines 221-239). -/
def formatJSXTextLiteralStep (st : TextFmtState) (c : Char) : TextFmtState :=
  if c = ' ' ∨ c = '\t' then
    if !st.isInInitialLineWhitespace then
      { st with whitespace := st.whitespace ++ String.singleton c }
    else st
  else if c = '\n' then
    { st with whitespace := "", isInInitialLineWhitespace := true }
  else
    { result :=
        (if st.seenNonWhitespace && st.isInInitialLineWhitespace then st.result ++ " "
         else st.result) ++ st.whitespace ++ String.singleton c,
      whitespace := "",
      isInInitialLineWhitespace := false,
      seenNonWhitespace := true }

/-- formatJSXTextLiteral (source lines 215-244): normalize a JSX text run
into a JS string literal.  Note that isInInitialLineWhitespace starts out
false, so whitespace at the very beginning of the text is kept. -/
def formatJSXTextLiteral (text : String) : String :=
  let st := text.data.foldl formatJSXTextLiteralStep ⟨"", "", false, false⟩
  jsonStringify (if !st.isInInitialLineWhitespace then st.result ++ st.whitespace else st.result)

/-- One iteration of the counting loop of formatJSXTextReplacement
(source lines 254-261): first component counts newlines, second counts
spaces and is reset by each newline. -/
def formatJSXTextReplacementStep (acc : Nat × Nat) (c : Char) : Nat × Nat :=
  if c = '\n' then (acc.1 + 1, 0)
  else if c = ' ' then (acc.1, acc.2 + 1)
  else acc

/-- formatJSXTextReplacement (source lines 251-263): all newlines preserved,
followed by the run of spaces counted since the last newline. -/
def formatJSXTextReplacement (text : String) : String :=
  let acc := text.data.foldl formatJSXTextReplacementStep (0, 0)
  String.mk (List.replicate acc.1 '\n') ++ String.mk (List.replicate acc.2 ' ')

/-- Model of the JavaScript regular-expression character class \s
(whitespace) used by the pattern in formatJSXStringValueLiteral. -/
def isJsWhitespace (c : Char) : Bool :=
  c = ' ' || c = '\t' || c = '\n' || c = '\r' || c = Char.ofNat 11 || c = Char.ofNat 12 ||
  c = Char.ofNat 160 || c = Char.ofNat 5760 ||
  (8192 ≤ c.toNat && c.toNat ≤ 8202) ||
  c = Char.ofNat 8232 || c = Char.ofNat 8233 || c = Char.ofNat 8239 ||
  c = Char.ofNat 8287 || c = Char.ofNat 12288 || c = Char.ofNat 65279

mutual

/-- Model of the JavaScript global regex replacement
text.replace of the pattern newline-then-whitespace-run by a single space,
as a left-to-right scan: a newline followed by at least one whitespace
character starts a match; the greedy whitespace run is consumed by
swallowWs. -/
def replaceNewlineWs : List Char → List Char
  | [] => []
  | c :: rest =>
    if c = '\n' ∧ (rest.head?.any isJsWhitespace) then
      ' ' :: swallowWs rest
    else
      c :: replaceNewlineWs rest

/-- Consume the greedy whitespace run of a match of the
newline-then-whitespace-run pattern, then resume scanning. -/
def swallowWs : List Char → List Char
  | [] => []
  | c :: rest =>
    if isJsWhitespace c then swallowWs rest
    else c :: replaceNewlineWs rest

end

/-- formatJSXStringValueLiteral (source lines 271-273): collapse each
newline-plus-whitespace run to one space, then JSON.stringify. -/
def formatJSXStringValueLiteral (text : String) : String :=
  jsonStringify (String.mk (replaceNewlineWs text.data))

/-- Locate the leftmost match of the pattern newline-then-whitespace-run:
returns the text before the match and the text after the match. -/
def findNlWsMatch : List Char → Option (List Char × List Char)
  | [] => none
  | c :: rest =>
    if c = '\n' ∧ (rest.head?.any isJsWhitespace) then
      some ([], rest.dropWhile isJsWhitespace)
    else (findNlWsMatch rest).map (fun pr => (c :: pr.1, pr.2))

/-- Modelled from the spec: replace every run matching
newline-followed-by-one-or-more-whitespace-characters with a single space,
as repeated leftmost-match replacement (gas-indexed; the gas is the length
of the list, which bounds the number of matches). -/
def specCollapseGo : Nat → List Char → List Char
  | 0, l => l
  | gas + 1, l =>
    match findNlWsMatch l with
    | none => l
    | some pr => pr.1 ++ ' ' :: specCollapseGo gas pr.2

/-- Modelled from the spec: the attribute-value normalization rule of the
specification, by repeated leftmost-match replacement. -/
def specCollapse (l : List Char) : List Char :=
  specCollapseGo l.length l

/-- Decides whether no newline in the list is immediately followed by a
whitespace character (so the replacement pattern never matches). -/
def noNlWsPairs : List Char → Bool
  | [] => true
  | [_] => true
  | a :: b :: rest => (a != '\n' || !isJsWhitespace b) && noNlWsPairs (b :: rest)

/-- Count of the literal space characters occurring after the last newline
of the list (over the whole list when it has no newline); the independent
description of the space run produced by formatJSXTextReplacement. -/
def spacesAfterLastNewline (l : List Char) : Nat :=
  (l.reverse.takeWhile (fun c => c != '\n')).count ' '

/-- Model of the JavaScript String.prototype.toLowerCase for a single
character, restricted to the ASCII range (the transformer only compares the
first character of a tag-name identifier with its lower-cased form). -/
def jsToLowerChar (c : Char) : Char :=
  if 65 ≤ c.toNat ∧ c.toNat ≤ 90 then Char.ofNat (c.toNat + 32) else c

/-- startsWithLowerCase (source lines 202-204): the first character equals
its own lower-cased form.  On the empty string the JS expression would
dereference undefined; the transformer only applies it to token values,
which are never empty. -/
def startsWithLowerCase (s : String) : Bool :=
  match s.data with
  | [] => true
  | c :: _ => decide (jsToLowerChar c = c)

/-- Body of the while loop of getLineNumberForIndex (source lines 45-50),
driven by the gauge index - lastIndex, which decreases by one each
iteration of the source loop: while lastIndex is below both the target
index and the code length, count a newline and advance. -/
def lineScanAux : Nat → List Char → Nat → Nat → Nat × Nat
  | 0, _, line, idx => (line, idx)
  | gas + 1, code, line, idx =>
    if idx < code.length then
      lineScanAux gas code (if code[idx]? = some '\n' then line + 1 else line) (idx + 1)
    else (line, idx)

/-- getLineNumberForIndex (source lines 43-52) acting on the cursor state
(lastLineNumber, lastIndex): scan forward to the requested index, counting
newlines; returns the updated state. -/
def lineScan (code : List Char) (line idx target : Nat) : Nat × Nat :=
  lineScanAux (target - idx) code line idx

/-- Repeated queries of the line cursor within one pass: each query feeds
the state (lastLineNumber, lastIndex) left by the previous one, exactly as
the mutable fields of the transformer do. -/
def runLineQueries (code : List Char) : Nat → Nat → List Nat → List Nat
  | _, _, [] => []
  | line, idx, q :: qs =>
    (lineScan code line idx q).1 ::
      runLineQueries code (lineScan code line idx q).1 (lineScan code line idx q).2 qs

/-- Decides that a list of numbers is in non-decreasing order (the
documented precondition of getLineNumberForIndex). -/
def nondec : List Nat → Bool
  | [] => true
  | [_] => true
  | a :: b :: l => decide (a ≤ b) && nondec (b :: l)

/-- Token kinds relevant to the JSX transformer; every other token kind of
the tokenizer is collapsed into other. -/
inductive TokKind where
  | jsxTagStart
  | jsxTagEnd
  | slash
  | jsxName
  | eq
  | braceL
  | braceR
  | jsxText
  | other
deriving DecidableEq, Repr

/-- Modelled from the spec: a classified lexical unit with a kind tag, its
source byte offset and its literal text value. -/
structure Token where
  kind : TokKind
  value : String
  start : Nat
deriving DecidableEq, Repr

/-- Errors of a transformation run: outOfFuel models divergence or an
out-of-range buffer access of the source on input the tokenizer would never
produce; thrown models a JavaScript exception with its message. -/
inductive TErr where
  | outOfFuel
  | thrown (msg : String)
deriving DecidableEq, Repr

/-- Modelled from the spec: the token buffer with its cursor and the
accumulated output text, together with the mutable fields of the
JSXTransformer (lastLineNumber, lastIndex, filenameVarName) and the
external collaborators: the source code text (for line numbers), the
import-resolver answer for the logical name React (reactName) and the
fresh identifier the name allocator issues for the seed _jsxFileName
(freeName). -/
structure TState where
  tokens : List Token
  index : Nat
  output : String
  lastLineNumber : Nat
  lastIndex : Nat
  filenameVarName : Option String
  code : List Char
  reactName : Option String
  freeName : String
deriving DecidableEq, Repr

/-- The kind of the token at a given buffer position, if any. -/
def kindAt (tokens : List Token) (i : Nat) : Option TokKind :=
  (tokens[i]?).map Token.kind

/-- Modelled from the spec: test whether the current token has the given
kind (TokenProcessor.matches1). -/
def TState.matches1 (st : TState) (k : TokKind) : Bool :=
  decide (kindAt st.tokens st.index = some k)

/-- Modelled from the spec: test whether the two tokens at the cursor have
the given kinds (TokenProcessor.matches2). -/
def TState.matches2 (st : TState) (k1 k2 : TokKind) : Bool :=
  decide (kindAt st.tokens st.index = some k1) &&
    decide (kindAt st.tokens (st.index + 1) = some k2)

/-- Modelled from the spec: test a kind sequence at an arbitrary forward
index (TokenProcessor.matchesAtIndex). -/
def matchesKindsAt (tokens : List Token) (i : Nat) : List TokKind → Bool
  | [] => true
  | k :: ks => decide (kindAt tokens i = some k) && matchesKindsAt tokens (i + 1) ks

/-- The literal text of the current token (empty when the cursor is out of
range, which the guarded source code never observes). -/
def TState.currentValue (st : TState) : String :=
  ((st.tokens[st.index]?).map Token.value).getD ""

/-- The source byte offset of the current token. -/
def TState.currentStart (st : TState) : Nat :=
  ((st.tokens[st.index]?).map Token.start).getD 0

/-- Modelled from the spec: emit the given text in place of the current
token and advance the cursor (TokenProcessor.replaceToken). -/
def TState.replaceToken (st : TState) (s : String) : TState :=
  { st with output := st.output ++ s, index := st.index + 1 }

/-- Modelled from the spec: emit the current token text unchanged and
advance the cursor (TokenProcessor.copyToken). -/
def TState.copyToken (st : TState) : TState :=
  st.replaceToken st.currentValue

/-- Modelled from the spec: append text immediately after the current
position without advancing (TokenProcessor.appendCode). -/
def TState.appendCode (st : TState) (s : String) : TState :=
  { st with output := st.output ++ s }

/-- getLineNumberForIndex (source lines 43-52) as a state transformer on
the lastLineNumber and lastIndex fields. -/
def TState.getLineNumberForIndex (st : TState) (index : Nat) : Nat × TState :=
  let p := lineScan st.code st.lastLineNumber st.lastIndex index
  (p.1, { st with lastLineNumber := p.1, lastIndex := p.2 })

/-- getFilenameVarName (source lines 54-59): lazily claim the file-name
binding identifier from the name allocator on first use. -/
def TState.getFilenameVarName (st : TState) : String × TState :=
  match st.filenameVarName with
  | some n => (n, st)
  | none => (st.freeName, { st with filenameVarName := some st.freeName })

/-- A single-quote character as a string, used for the quoted rewrites of
tag names and hyphenated attribute names. -/
def squote : String :=
  String.singleton (Char.ofNat 39)

/-- The debug-props text emitted by processProps (source line 63). -/
def devPropsStr (fname : String) (lineNumber : Nat) : String :=
  "__self: this, __source: \x7bfileName: " ++ fname ++ ", lineNumber: " ++
    toString lineNumber ++ "\x7d"

/-- processStringPropValue (source lines 99-104). -/
def TState.processStringPropValue (st : TState) : TState :=
  st.replaceToken
    (formatJSXStringValueLiteral st.currentValue ++ formatJSXTextReplacement st.currentValue)

/-- processChildTextElement (source lines 165-174). -/
def TState.processChildTextElement (st : TState) : TState :=
  if formatJSXTextLiteral st.currentValue = "\"\"" then
    st.replaceToken (formatJSXTextReplacement st.currentValue)
  else
    st.replaceToken
      (", " ++ formatJSXTextLiteral st.currentValue ++ formatJSXTextReplacement st.currentValue)

/-- The scan for introEnd in processTagIntro (source lines 115-123): walk
forward from the given index until one of the four stop patterns holds.
The gas bounds the walk; on a buffer where no stop pattern ever holds the
source loop would not terminate, which the model reports as none. -/
def findIntroEnd (tokens : List Token) (introEnd : Nat) : Nat → Option Nat
  | 0 => none
  | gas + 1 =>
    if !matchesKindsAt tokens (introEnd - 1) [.jsxName, .jsxName] &&
       !matchesKindsAt tokens introEnd [.braceL] &&
       !matchesKindsAt tokens introEnd [.jsxTagEnd] &&
       !matchesKindsAt tokens introEnd [.slash, .jsxTagEnd] then
      findIntroEnd tokens (introEnd + 1) gas
    else some introEnd

/-- The text of the tokens in the index interval from i (inclusive) to j
(exclusive), concatenated; what the generic per-token processing emits for
the tag-intro span. -/
def introValues (tokens : List Token) (i j : Nat) : String :=
  ((tokens.drop i).take (j - i)).foldl (fun acc t => acc ++ t.value) ""

mutual

/-- Modelled from the spec: RootTransformer.processToken, the generic
process-one-token procedure: dispatch to the JSX transformer on a
tag-start token, otherwise apply the generic rewrites, modelled as copying
the token text, and advance. -/
def processToken (fuel : Nat) (st : TState) : Except TErr TState :=
  match fuel with
  | 0 => .error .outOfFuel
  | fu + 1 =>
    if st.matches1 .jsxTagStart then processJSXTag fu st
    else .ok st.copyToken

/-- Modelled from the spec: RootTransformer.processBalancedCode, entered
just past an opening brace: process tokens, tracking nested brace depth and
recursing into nested JSX, until the matching closing brace is the current
token, which is left for the caller. -/
def processBalancedCode (fuel : Nat) (st : TState) (depth : Nat) : Except TErr TState :=
  match fuel with
  | 0 => .error .outOfFuel
  | fu + 1 =>
    match st.tokens[st.index]? with
    | none => .error .outOfFuel
    | some t =>
      if t.kind = .braceR then
        if depth = 0 then .ok st
        else processBalancedCode fu st.copyToken (depth - 1)
      else if t.kind = .braceL then
        processBalancedCode fu st.copyToken (depth + 1)
      else
        match processToken fu st with
        | .error e => .error e
        | .ok st2 => processBalancedCode fu st2 depth

/-- The final loop of processTagIntro (source lines 130-132): process each
token of the intro span with the generic token processor. -/
def introLoop (fuel : Nat) (st : TState) (introEnd : Nat) : Except TErr TState :=
  match fuel with
  | 0 => .error .outOfFuel
  | fu + 1 =>
    if st.index < introEnd then
      match processToken fu st with
      | .error e => .error e
      | .ok st2 => introLoop fu st2 introEnd
    else .ok st

/-- processTagIntro (source lines 109-133): locate the end of the tag-name
span, rewrite a single lower-case-initial name token as a quoted string
literal, then process the span with the generic token processor. -/
def processTagIntro (fuel : Nat) (st : TState) : Except TErr TState :=
  match fuel with
  | 0 => .error .outOfFuel
  | fu + 1 =>
    match findIntroEnd st.tokens (st.index + 1) (st.tokens.length + 2) with
    | none => .error .outOfFuel
    | some introEnd =>
      introLoop fu
        (if introEnd = st.index + 1 && startsWithLowerCase st.currentValue then
          st.replaceToken (squote ++ st.currentValue ++ squote)
         else st)
        introEnd

/-- The attribute loop of processProps (source lines 69-95). -/
def propsLoop (fuel : Nat) (st : TState) : Except TErr TState :=
  match fuel with
  | 0 => .error .outOfFuel
  | fu + 1 =>
    if st.matches2 .jsxName .eq then
      let st2 :=
        (if st.currentValue.contains (Char.ofNat 45) then
          st.replaceToken (squote ++ st.currentValue ++ squote)
         else st.copyToken).replaceToken ": "
      if st2.matches1 .braceL then
        match processBalancedCode fu (st2.replaceToken "") 0 with
        | .error e => .error e
        | .ok st3 => propsLoop fu ((st3.replaceToken "").appendCode ",")
      else propsLoop fu (st2.processStringPropValue.appendCode ",")
    else if st.matches1 .jsxName then
      propsLoop fu ((st.copyToken.appendCode ": true").appendCode ",")
    else if st.matches1 .braceL then
      match processBalancedCode fu (st.replaceToken "") 0 with
      | .error e => .error e
      | .ok st3 => propsLoop fu ((st3.replaceToken "").appendCode ",")
    else .ok st

/-- processProps (source lines 61-97): compute the debug line number, claim
the file-name binding, then emit the object-literal argument with the
attribute list and the debug props. -/
def processProps (fuel : Nat) (st : TState) (firstTokenStart : Nat) : Except TErr TState :=
  match fuel with
  | 0 => .error .outOfFuel
  | fu + 1 =>
    let p1 := st.getLineNumberForIndex firstTokenStart
    let q1 := p1.2.getFilenameVarName
    let st2 := q1.2
    let dev := devPropsStr q1.1 p1.1
    if !st2.matches1 .jsxName && !st2.matches1 .braceL then
      .ok (st2.appendCode (", \x7b" ++ dev ++ "\x7d"))
    else
      match propsLoop fu (st2.appendCode ", \x7b") with
      | .error e => .error e
      | .ok st3 => .ok (st3.appendCode (" " ++ dev ++ "\x7d"))

/-- processChildren (source lines 135-163). -/
def processChildren (fuel : Nat) (st : TState) : Except TErr TState :=
  match fuel with
  | 0 => .error .outOfFuel
  | fu + 1 =>
    if st.matches2 .jsxTagStart .slash then .ok st
    else if st.matches1 .braceL then
      if st.matches2 .braceL .braceR then
        processChildren fu ((st.replaceToken "").replaceToken "")
      else
        match processBalancedCode fu (st.replaceToken ", ") 0 with
        | .error e => .error e
        | .ok st2 => processChildren fu (st2.replaceToken "")
    else if st.matches1 .jsxTagStart then
      match processJSXTag fu (st.appendCode ", ") with
      | .error e => .error e
      | .ok st2 => processChildren fu st2
    else if st.matches1 .jsxText then
      processChildren fu st.processChildTextElement
    else .error (.thrown "Unexpected token when processing JSX children.")

/-- The closing-tag discard loop of processJSXTag (source lines 192-194):
blank out tokens until the closing tag-end marker is current. -/
def skipToTagEnd (fuel : Nat) (st : TState) : Except TErr TState :=
  match fuel with
  | 0 => .error .outOfFuel
  | fu + 1 =>
    if st.matches1 .jsxTagEnd then .ok st
    else skipToTagEnd fu (st.replaceToken "")

/-- processJSXTag (source lines 176-199): emit the factory-call opening,
process the tag intro and the props, then either finish a self-closing tag
or process the children and the closing tag; any other terminator throws. -/
def processJSXTag (fuel : Nat) (st : TState) : Except TErr TState :=
  match fuel with
  | 0 => .error .outOfFuel
  | fu + 1 =>
    match processTagIntro fu
      ((st.replaceToken ((st.reactName.getD "React") ++ ".createElement("))) with
    | .error e => .error e
    | .ok st1 =>
      match processProps fu st1 st.currentStart with
      | .error e => .error e
      | .ok st2 =>
        if st2.matches2 .slash .jsxTagEnd then
          .ok ((st2.replaceToken "").replaceToken ")")
        else if st2.matches1 .jsxTagEnd then
          match processChildren fu (st2.replaceToken "") with
          | .error e => .error e
          | .ok st3 =>
            match skipToTagEnd fu st3 with
            | .error e => .error e
            | .ok st4 => .ok (st4.replaceToken ")")
        else .error (.thrown "Expected either /> or > at the end of the tag.")

end

/-- An initial transformer state over a token buffer and source text, with
the allocator issuing the unclashed seed name itself. -/
def mkState (tokens : List Token) (code : List Char) : TState :=
  { tokens := tokens, index := 0, output := "", lastLineNumber := 1, lastIndex := 0,
    filenameVarName := none, code := code, reactName := none, freeName := "_jsxFileName" }

/-- The output text of a successful run. -/
def outputOf (r : Except TErr TState) : Option String :=
  match r with
  | .ok st => some st.output
  | .error _ => none

/-- The message of a run that ended in a thrown exception. -/
def thrownMsgOf (r : Except TErr TState) : Option String :=
  match r with
  | .error (.thrown m) => some m
  | _ => none

/-- A transformation step only appends to the output and never clears the
file-name binding once it is claimed. -/
def Pres (st st2 : TState) : Prop :=
  (∃ s, st2.output = st.output ++ s) ∧
    ∀ n, st.filenameVarName = some n → st2.filenameVarName = some n

/-- A run result is good: on success the final state extends the initial
one (Pres), and the only exceptions it can throw are the two fatal
diagnostics of the transformer. -/
def GoodRes (st : TState) (r : Except TErr TState) : Prop :=
  (∀ st2, r = .ok st2 → Pres st st2) ∧
    ∀ m, r = .error (.thrown m) →
      m = "Expected either /> or > at the end of the tag." ∨
        m = "Unexpected token when processing JSX children."

theorem smk_append (l1 l2 : List Char) : String.mk l1 ++ String.mk l2 = String.mk (l1 ++ l2) :=
  rfl

theorem sapp_assoc (a b c : String) : a ++ b ++ c = a ++ (b ++ c) := by
  cases a
  cases b
  cases c
  simp [smk_append]

theorem sapp_empty (a : String) : a ++ "" = a := by
  cases a
  simp [show ("" : String) = String.mk [] from rfl, smk_append]

/-- Claim C1 (counterexample): contrary to the claim, formatJSXTextLiteral
applied to the text space-hello-space-newline-space-world-space does not
return the string-literal content hello-world with the boundary spaces
trimmed. -/
theorem claim_C1_counterexample :
    formatJSXTextLiteral " hello \n world " ≠ "\"hello world\"" := by
  decide

/-- Claim C1 (amended): formatJSXTextLiteral applied to the text
space-hello-space-newline-space-world-space returns the string-literal
content space-hello-space-world-space: the leading space of the first line
and the trailing space of the last line are preserved, and the internal
newline with its surrounding whitespace collapses to exactly one joining
space, consistent with isInInitialLineWhitespace being false at the very
beginning of the text. -/
theorem claim_C1_amended :
    formatJSXTextLiteral " hello \n world " = "\" hello world \"" := by
  decide

theorem textReplacementStep_fold (l : List Char) :
    l.foldl formatJSXTextReplacementStep (0, 0) = (l.count '\n', spacesAfterLastNewline l) := by
  induction l using List.reverseRecOn with
  | nil => simp [spacesAfterLastNewline]
  | append_singleton l c ih =>
    rw [List.foldl_append, List.foldl_cons, List.foldl_nil, ih]
    by_cases h1 : c = '\n'
    · subst h1
      simp [formatJSXTextReplacementStep, spacesAfterLastNewline]
    · by_cases h2 : c = ' '
      · subst h2
        simp [formatJSXTextReplacementStep, spacesAfterLastNewline, List.takeWhile_cons]
      · simp [formatJSXTextReplacementStep, spacesAfterLastNewline, List.takeWhile_cons, h1, h2,
          List.count_cons, List.count_singleton, beq_iff_eq, Ne.symm h1, Ne.symm h2]

/-- Claim C3: for every input text, formatJSXTextReplacement returns one
newline character per newline character of the input, followed by exactly
as many space characters as there are literal space characters (tabs
excluded) occurring after the last newline of the input (over the whole
input when it has no newline); in particular the output contains exactly as
many newlines as the input. -/
theorem claim_C3 (text : String) :
    formatJSXTextReplacement text =
      String.mk (List.replicate (text.data.count '\n') '\n' ++
        List.replicate (spacesAfterLastNewline text.data) ' ') ∧
    (formatJSXTextReplacement text).data.count '\n' = text.data.count '\n' := by
  have h : formatJSXTextReplacement text =
      String.mk (List.replicate (text.data.count '\n') '\n' ++
        List.replicate (spacesAfterLastNewline text.data) ' ') := by
    unfold formatJSXTextReplacement
    rw [textReplacementStep_fold, smk_append]
  refine ⟨h, ?_⟩
  rw [h]
  simp [List.count_append, List.count_replicate]

theorem smk_data (s : String) : String.mk s.data = s :=
  rfl

theorem dropWhile_len_le (p : Char → Bool) :
    ∀ l : List Char, (l.dropWhile p).length ≤ l.length := by
  intro l
  induction l with
  | nil => exact Nat.le_refl 0
  | cons c rest ih =>
    rw [List.dropWhile_cons]
    by_cases h : p c = true
    · simp only [h, if_true]
      exact Nat.le_succ_of_le ih
    · simp only [h, if_false]
      exact Nat.le_refl _

theorem not_nl_of_not_ws {c : Char} (h : ¬ isJsWhitespace c = true) : c ≠ '\n' := by
  intro he
  subst he
  simp [isJsWhitespace] at h

theorem swallowWs_eq (l : List Char) :
    swallowWs l = replaceNewlineWs (l.dropWhile isJsWhitespace) := by
  induction l with
  | nil => rfl
  | cons c rest ih =>
    by_cases h : isJsWhitespace c = true
    · simp [swallowWs, List.dropWhile_cons, h, ih]
    · simp [swallowWs, List.dropWhile_cons, h, replaceNewlineWs, not_nl_of_not_ws h]

theorem findNlWsMatch_rem_lt :
    ∀ l pr, findNlWsMatch l = some pr → pr.2.length < l.length := by
  intro l
  induction l with
  | nil => intro pr h; simp [findNlWsMatch] at h
  | cons c rest ih =>
    intro pr h
    rw [findNlWsMatch] at h
    split at h
    · cases h
      exact Nat.lt_succ_of_le (dropWhile_len_le _ _)
    · rcases Option.map_eq_some'.mp h with ⟨pr0, hpr0, hmk⟩
      subst hmk
      exact Nat.lt_succ_of_lt (ih pr0 hpr0)

theorem specCollapseGo_nil (gas : Nat) : specCollapseGo gas [] = [] := by
  cases gas <;> simp [specCollapseGo, findNlWsMatch]

theorem specCollapseGo_succ (gas : Nat) (l : List Char) :
    specCollapseGo (gas + 1) l =
      match findNlWsMatch l with
      | none => l
      | some pr => pr.1 ++ ' ' :: specCollapseGo gas pr.2 :=
  rfl

theorem specCollapseGo_congr :
    ∀ gas gas2 (l : List Char), l.length ≤ gas → l.length ≤ gas2 →
      specCollapseGo gas l = specCollapseGo gas2 l := by
  intro gas
  induction gas with
  | zero =>
    intro gas2 l h1 _
    rw [List.length_eq_zero.mp (Nat.le_zero.mp h1)]
    rw [specCollapseGo_nil, specCollapseGo_nil]
  | succ gas ih =>
    intro gas2 l h1 h2
    cases gas2 with
    | zero =>
      rw [List.length_eq_zero.mp (Nat.le_zero.mp h2)]
      rw [specCollapseGo_nil, specCollapseGo_nil]
    | succ gas2 =>
      cases hf : findNlWsMatch l with
      | none => simp only [specCollapseGo, hf]
      | some pr =>
        have hlt := findNlWsMatch_rem_lt l pr hf
        have e := ih gas2 pr.2 (Nat.le_of_lt_succ (Nat.lt_of_lt_of_le hlt h1))
          (Nat.le_of_lt_succ (Nat.lt_of_lt_of_le hlt h2))
        simp only [specCollapseGo, hf, e]

theorem replace_id_of_find_none :
    ∀ l : List Char, findNlWsMatch l = none → replaceNewlineWs l = l := by
  intro l
  induction l with
  | nil => intro _; rfl
  | cons c rest ih =>
    intro h
    rw [findNlWsMatch] at h
    split at h
    · cases h
    · rw [replaceNewlineWs]
      rename_i hcond
      rw [if_neg hcond, ih (Option.map_eq_none'.mp h)]

theorem replace_eq_specGo :
    ∀ gas (l : List Char), l.length ≤ gas → replaceNewlineWs l = specCollapseGo gas l := by
  intro gas
  induction gas with
  | zero =>
    intro l h1
    rw [List.length_eq_zero.mp (Nat.le_zero.mp h1)]
    rfl
  | succ gas ih =>
    intro l h1
    cases l with
    | nil => rw [specCollapseGo_nil]; rfl
    | cons c rest =>
      by_cases hm : c = '\n' ∧ (rest.head?.any isJsWhitespace) = true
      · rw [replaceNewlineWs, if_pos hm, swallowWs_eq]
        have hfind : findNlWsMatch (c :: rest) = some ([], rest.dropWhile isJsWhitespace) := by
          rw [findNlWsMatch, if_pos hm]
        have hlen : (rest.dropWhile isJsWhitespace).length ≤ gas :=
          Nat.le_trans (dropWhile_len_le _ _) (Nat.le_of_succ_le_succ h1)
        rw [specCollapseGo_succ gas (c :: rest), hfind, ih _ hlen]
        rfl
      · have hrest : rest.length ≤ gas := Nat.le_of_succ_le_succ h1
        rw [replaceNewlineWs, if_neg hm]
        cases hf : findNlWsMatch rest with
        | none =>
          have hfind : findNlWsMatch (c :: rest) = none := by
            rw [findNlWsMatch, if_neg hm, hf]
            rfl
          rw [specCollapseGo_succ gas (c :: rest), hfind, replace_id_of_find_none rest hf]
        | some pr =>
          have hfind : findNlWsMatch (c :: rest) = some (c :: pr.1, pr.2) := by
            rw [findNlWsMatch, if_neg hm, hf]
            rfl
          have hlt := findNlWsMatch_rem_lt rest pr hf
          rw [ih rest hrest]
          cases gas with
          | zero =>
            have hnil : rest = [] := List.length_eq_zero.mp (Nat.le_zero.mp hrest)
            subst hnil
            simp [findNlWsMatch] at hf
          | succ g =>
            have e := specCollapseGo_congr g (g + 1) pr.2
              (Nat.le_of_lt_succ (Nat.lt_of_lt_of_le hlt hrest))
              (Nat.le_succ_of_le (Nat.le_of_lt_succ (Nat.lt_of_lt_of_le hlt hrest)))
            calc c :: specCollapseGo (g + 1) rest
                = c :: (pr.1 ++ ' ' :: specCollapseGo g pr.2) := by
                  rw [specCollapseGo_succ g rest, hf]
              _ = (c :: pr.1) ++ ' ' :: specCollapseGo (g + 1) pr.2 := by
                  rw [e, List.cons_append]
              _ = specCollapseGo (g + 1 + 1) (c :: rest) := by
                  rw [specCollapseGo_succ (g + 1) (c :: rest), hfind]

theorem noNlWsPairs_find_none :
    ∀ l : List Char, noNlWsPairs l = true → findNlWsMatch l = none := by
  intro l
  induction l with
  | nil => intro _; rfl
  | cons c rest ih =>
    intro h
    cases rest with
    | nil => simp [findNlWsMatch]
    | cons b rest2 =>
      rw [noNlWsPairs] at h
      rcases Bool.and_eq_true_iff.mp h with ⟨hpair, htail⟩
      have hcond : ¬ (c = '\n' ∧ (((b :: rest2).head?.any isJsWhitespace) = true)) := by
        intro hc
        rcases hc with ⟨hc1, hc2⟩
        simp only [List.head?, Option.any_some] at hc2
        rcases Bool.or_eq_true_iff.mp hpair with hne | hnw
        · exact absurd hc1 (by simpa using hne)
        · rw [hc2] at hnw
          simp at hnw
      rw [findNlWsMatch, if_neg hcond, ih htail]
      rfl

/-- Claim C8: for every raw string attribute value, the
formatJSXStringValueLiteral function returns the escaped string-literal
form of the text after replacing every run matching
newline-followed-by-one-or-more-whitespace-characters with a single space
(specCollapse, the repeated leftmost-match replacement of the
specification); a newline not followed by a whitespace character is
preserved unchanged. -/
theorem claim_C8 (text : String) :
    formatJSXStringValueLiteral text = jsonStringify (String.mk (specCollapse text.data)) ∧
    (noNlWsPairs text.data = true → formatJSXStringValueLiteral text = jsonStringify text) := by
  constructor
  · unfold formatJSXStringValueLiteral specCollapse
    rw [replace_eq_specGo text.data.length text.data Nat.le.refl]
  · intro h
    unfold formatJSXStringValueLiteral
    rw [replace_id_of_find_none _ (noNlWsPairs_find_none _ h), smk_data]

/-- Witness for claim C8 at the attribute value a-newline-b, whose newline
is not followed by a whitespace character and is hence preserved. -/
theorem claim_C8_witness :
    noNlWsPairs ("a\nb").data = true ∧
    formatJSXStringValueLiteral "a\nb" = jsonStringify "a\nb" :=
  ⟨by decide, (claim_C8 "a\nb").2 (by decide)⟩

theorem take_min_length (code : List Char) (q : Nat) :
    code.take (min q code.length) = code.take q := by
  by_cases h : q ≤ code.length
  · rw [Nat.min_eq_left h]
  · have h2 : code.length ≤ q := Nat.le_of_not_le h
    rw [Nat.min_eq_right h2, List.take_length, List.take_of_length_le h2]

theorem lineScanAux_inv (code : List Char) :
    ∀ gas idx, idx ≤ code.length →
      lineScanAux gas code (1 + ((code.take idx).count '\n')) idx =
        (1 + ((code.take (idx + gas)).count '\n'), min (idx + gas) code.length) := by
  intro gas
  induction gas with
  | zero =>
    intro idx h
    rw [lineScanAux, Nat.add_zero, Nat.min_eq_left h]
  | succ gas ih =>
    intro idx h
    rw [lineScanAux]
    by_cases hlt : idx < code.length
    · rw [if_pos hlt]
      have hsome : code[idx]? = some code[idx] := List.getElem?_eq_getElem hlt
      have harr : idx + (gas + 1) = idx + 1 + gas := by omega
      have hline :
          (if code[idx]? = some '\n' then 1 + ((code.take idx).count '\n') + 1
           else 1 + ((code.take idx).count '\n')) =
            1 + ((code.take (idx + 1)).count '\n') := by
        rw [List.take_succ, hsome, List.count_append]
        by_cases hnl : code[idx] = '\n'
        · rw [hnl, if_pos rfl, show (((some '\n').toList).count '\n') = 1 from by decide]
          omega
        · rw [if_neg (fun hx => hnl (Option.some.inj hx))]
          have hz : (((some code[idx]).toList).count '\n') = 0 := by
            simp [Option.toList, List.count_cons, beq_iff_eq, Ne.symm hnl]
          rw [hz]
          omega
      rw [hline, harr]
      exact ih (idx + 1) hlt
    · have hidx : idx = code.length := Nat.le_antisymm h (Nat.le_of_not_lt hlt)
      rw [if_neg hlt]
      subst hidx
      rw [List.take_length, List.take_of_length_le (by omega),
        Nat.min_eq_right (by omega)]

theorem lineScan_inv (code : List Char) (idx target : Nat) (h1 : idx ≤ code.length)
    (h2 : idx ≤ target) :
    lineScan code (1 + ((code.take idx).count '\n')) idx target =
      (1 + ((code.take target).count '\n'), min target code.length) := by
  unfold lineScan
  have ht : idx + (target - idx) = target := by omega
  rw [lineScanAux_inv code (target - idx) idx h1, ht]

theorem nondec_cons {a b : Nat} {l : List Nat} (h : nondec (a :: b :: l) = true) :
    a ≤ b ∧ nondec (b :: l) = true := by
  rw [nondec] at h
  rcases Bool.and_eq_true_iff.mp h with ⟨h1, h2⟩
  exact ⟨of_decide_eq_true h1, h2⟩

theorem nondec_lower {a b : Nat} {l : List Nat} (hab : a ≤ b) (h : nondec (b :: l) = true) :
    nondec (a :: l) = true := by
  cases l with
  | nil => rfl
  | cons c l2 =>
    rcases nondec_cons h with ⟨h1, h2⟩
    rw [nondec]
    exact Bool.and_eq_true_iff.mpr ⟨decide_eq_true (Nat.le_trans hab h1), h2⟩

theorem runLineQueries_spec (code : List Char) :
    ∀ (qs : List Nat) (idx : Nat), idx ≤ code.length → nondec (idx :: qs) = true →
      runLineQueries code (1 + ((code.take idx).count '\n')) idx qs =
        qs.map (fun i => 1 + ((code.take i).count '\n')) := by
  intro qs
  induction qs with
  | nil => intro idx _ _; rfl
  | cons q qs ih =>
    intro idx h1 h2
    rcases nondec_cons h2 with ⟨hle, h3⟩
    rw [runLineQueries, lineScan_inv code idx q h1 hle, List.map_cons]
    show (1 + ((code.take q).count '\n')) ::
        runLineQueries code (1 + ((code.take q).count '\n')) (min q code.length) qs = _
    congr 1
    have htake : code.take (min q code.length) = code.take q := take_min_length code q
    rw [← htake]
    exact ih (min q code.length) (Nat.min_le_right _ _)
      (nondec_lower (Nat.min_le_left _ _) h3)

/-- Claim C9: under the precondition that the offsets are queried in
non-decreasing order within one pass, getLineNumberForIndex (modelled by
lineScan threading the cursor state through runLineQueries) returns for
each offset 1 plus the number of newline characters of the source text
strictly before that offset, matching the independent direct newline count
over the prefix. -/
theorem claim_C9 (code : List Char) (qs : List Nat) (h : nondec qs = true) :
    runLineQueries code 1 0 qs = qs.map (fun i => 1 + ((code.take i).count '\n')) := by
  have h0 : nondec (0 :: qs) = true := by
    cases qs with
    | nil => rfl
    | cons q qs2 =>
      rw [nondec]
      exact Bool.and_eq_true_iff.mpr ⟨decide_eq_true (Nat.zero_le q), h⟩
  have hres := runLineQueries_spec code qs 0 (Nat.zero_le _) h0
  simpa using hres

/-- Witness for claim C9: over a three-line source text, the query sequence
0, 3, 4, 6, 9 is non-decreasing and yields the line numbers 1, 2, 2, 3, 4. -/
theorem claim_C9_witness :
    nondec [0, 3, 4, 6, 9] = true ∧
    runLineQueries ("ab\ncd\n\ne").data 1 0 [0, 3, 4, 6, 9] = [1, 2, 2, 3, 4] :=
  ⟨by decide, (claim_C9 ("ab\ncd\n\ne").data [0, 3, 4, 6, 9] (by decide)).trans (by decide)⟩

theorem pres_refl (st : TState) : Pres st st :=
  ⟨⟨"", (sapp_empty _).symm⟩, fun _ h => h⟩

theorem pres_trans {a b c : TState} (h1 : Pres a b) (h2 : Pres b c) : Pres a c := by
  rcases h1 with ⟨⟨s1, hs1⟩, hf1⟩
  rcases h2 with ⟨⟨s2, hs2⟩, hf2⟩
  exact ⟨⟨s1 ++ s2, by rw [hs2, hs1, sapp_assoc]⟩, fun n h => hf2 n (hf1 n h)⟩

theorem pres_replaceToken (st : TState) (s : String) : Pres st (st.replaceToken s) :=
  ⟨⟨s, rfl⟩, fun _ h => h⟩

theorem pres_appendCode (st : TState) (s : String) : Pres st (st.appendCode s) :=
  ⟨⟨s, rfl⟩, fun _ h => h⟩

theorem pres_copyToken (st : TState) : Pres st st.copyToken :=
  pres_replaceToken st st.currentValue

theorem pres_processStringPropValue (st : TState) : Pres st st.processStringPropValue :=
  pres_replaceToken st _

theorem pres_processChildTextElement (st : TState) : Pres st st.processChildTextElement := by
  unfold TState.processChildTextElement
  split
  · exact pres_replaceToken st _
  · exact pres_replaceToken st _

theorem pres_getLineNumberForIndex (st : TState) (i : Nat) :
    Pres st (st.getLineNumberForIndex i).2 :=
  ⟨⟨"", (sapp_empty _).symm⟩, fun _ h => h⟩

theorem pres_getFilenameVarName (st : TState) : Pres st st.getFilenameVarName.2 := by
  unfold TState.getFilenameVarName
  cases h : st.filenameVarName with
  | some n => exact pres_refl st
  | none =>
    refine ⟨⟨"", (sapp_empty _).symm⟩, fun n hn => ?_⟩
    rw [h] at hn
    cases hn

theorem goodres_ok_of_pres {st st2 : TState} (hp : Pres st st2) : GoodRes st (.ok st2) := by
  refine ⟨fun st3 h => ?_, fun m h => ?_⟩
  · cases h
    exact hp
  · cases h

theorem goodres_err_fuel (st : TState) : GoodRes st (.error .outOfFuel) := by
  refine ⟨fun st3 h => ?_, fun m h => ?_⟩
  · cases h
  · cases h

theorem goodres_thrown_or (st : TState) (m0 : String)
    (hm : m0 = "Expected either /> or > at the end of the tag." ∨
      m0 = "Unexpected token when processing JSX children.") :
    GoodRes st (.error (.thrown m0)) := by
  refine ⟨fun st3 h => ?_, fun m h => ?_⟩
  · cases h
  · cases h
    exact hm

theorem goodres_pre {st st2 : TState} {r : Except TErr TState} (hp : Pres st st2)
    (hg : GoodRes st2 r) : GoodRes st r :=
  ⟨fun st3 h => pres_trans hp (hg.1 st3 h), hg.2⟩

theorem goodres_of_error {st : TState} {r : Except TErr TState} {e : TErr}
    (hg : GoodRes st r) (he : r = .error e) : GoodRes st (.error e) := by
  refine ⟨fun st3 h => ?_, fun m h => ?_⟩
  · cases h
  · exact hg.2 m (he ▸ h)

theorem good_all : ∀ fuel,
    (∀ st, GoodRes st (processToken fuel st)) ∧
    (∀ st d, GoodRes st (processBalancedCode fuel st d)) ∧
    (∀ st e, GoodRes st (introLoop fuel st e)) ∧
    (∀ st, GoodRes st (processTagIntro fuel st)) ∧
    (∀ st, GoodRes st (propsLoop fuel st)) ∧
    (∀ st a, GoodRes st (processProps fuel st a)) ∧
    (∀ st, GoodRes st (processChildren fuel st)) ∧
    (∀ st, GoodRes st (skipToTagEnd fuel st)) ∧
    (∀ st, GoodRes st (processJSXTag fuel st)) := by
  intro fuel
  induction fuel with
  | zero =>
    exact ⟨fun st => goodres_err_fuel st, fun st _ => goodres_err_fuel st,
      fun st _ => goodres_err_fuel st, fun st => goodres_err_fuel st,
      fun st => goodres_err_fuel st, fun st _ => goodres_err_fuel st,
      fun st => goodres_err_fuel st, fun st => goodres_err_fuel st,
      fun st => goodres_err_fuel st⟩
  | succ fu ih =>
    obtain ⟨ihTok, ihBal, ihILoop, ihIntro, ihPLoop, ihProps, ihChild, ihSkip, ihTag⟩ := ih
    refine ⟨?_, ?_, ?_, ?_, ?_, ?_, ?_, ?_, ?_⟩
    · intro st
      simp only [processToken]
      split
      · exact ihTag st
      · exact goodres_ok_of_pres (pres_copyToken st)
    · intro st d
      simp only [processBalancedCode]
      split
      · exact goodres_err_fuel st
      · split
        · split
          · exact goodres_ok_of_pres (pres_refl st)
          · exact goodres_pre (pres_copyToken st) (ihBal _ _)
        · split
          · exact goodres_pre (pres_copyToken st) (ihBal _ _)
          · split
            · rename_i er her
              exact goodres_of_error (ihTok st) her
            · rename_i st2 h2
              exact goodres_pre ((ihTok st).1 st2 h2) (ihBal st2 d)
    · intro st e
      simp only [introLoop]
      split
      · split
        · rename_i er her
          exact goodres_of_error (ihTok st) her
        · rename_i st2 h2
          exact goodres_pre ((ihTok st).1 st2 h2) (ihILoop st2 e)
      · exact goodres_ok_of_pres (pres_refl st)
    · intro st
      simp only [processTagIntro]
      split
      · exact goodres_err_fuel st
      · rename_i introEnd hie
        split
        · exact goodres_pre (pres_replaceToken st _) (ihILoop _ _)
        · exact ihILoop st introEnd
    · intro st
      simp only [propsLoop]
      split
      · by_cases hh : st.currentValue.contains (Char.ofNat 45) = true
        · rw [if_pos hh]
          have hp2 : Pres st
              ((st.replaceToken (squote ++ st.currentValue ++ squote)).replaceToken ": ") :=
            pres_trans (pres_replaceToken st _) (pres_replaceToken _ _)
          split
          · split
            · rename_i er her
              exact goodres_of_error
                (goodres_pre (pres_trans hp2 (pres_replaceToken _ "")) (ihBal _ 0)) her
            · rename_i st3 h3
              exact goodres_pre
                (pres_trans
                  (pres_trans (pres_trans hp2 (pres_replaceToken _ "")) ((ihBal _ 0).1 st3 h3))
                  (pres_trans (pres_replaceToken st3 "") (pres_appendCode _ ",")))
                (ihPLoop _)
          · exact goodres_pre
              (pres_trans hp2
                (pres_trans (pres_processStringPropValue _) (pres_appendCode _ ",")))
              (ihPLoop _)
        · rw [if_neg hh]
          have hp2 : Pres st (st.copyToken.replaceToken ": ") :=
            pres_trans (pres_copyToken st) (pres_replaceToken _ _)
          split
          · split
            · rename_i er her
              exact goodres_of_error
                (goodres_pre (pres_trans hp2 (pres_replaceToken _ "")) (ihBal _ 0)) her
            · rename_i st3 h3
              exact goodres_pre
                (pres_trans
                  (pres_trans (pres_trans hp2 (pres_replaceToken _ "")) ((ihBal _ 0).1 st3 h3))
                  (pres_trans (pres_replaceToken st3 "") (pres_appendCode _ ",")))
                (ihPLoop _)
          · exact goodres_pre
              (pres_trans hp2
                (pres_trans (pres_processStringPropValue _) (pres_appendCode _ ",")))
              (ihPLoop _)
      · split
        · exact goodres_pre
            (pres_trans (pres_copyToken st)
              (pres_trans (pres_appendCode _ ": true") (pres_appendCode _ ",")))
            (ihPLoop _)
        · split
          · split
            · rename_i er her
              exact goodres_of_error (goodres_pre (pres_replaceToken st "") (ihBal _ 0)) her
            · rename_i st3 h3
              exact goodres_pre
                (pres_trans (pres_trans (pres_replaceToken st "") ((ihBal _ 0).1 st3 h3))
                  (pres_trans (pres_replaceToken st3 "") (pres_appendCode _ ",")))
                (ihPLoop _)
          · exact goodres_ok_of_pres (pres_refl st)
    · intro st a
      simp only [processProps]
      split
      · exact goodres_ok_of_pres
          (pres_trans (pres_getLineNumberForIndex st a)
            (pres_trans (pres_getFilenameVarName _) (pres_appendCode _ _)))
      · split
        · rename_i er her
          exact goodres_of_error
            (goodres_pre
              (pres_trans (pres_getLineNumberForIndex st a)
                (pres_trans (pres_getFilenameVarName _) (pres_appendCode _ _)))
              (ihPLoop _)) her
        · rename_i st3 h3
          exact goodres_ok_of_pres
            (pres_trans
              (pres_trans
                (pres_trans (pres_getLineNumberForIndex st a)
                  (pres_trans (pres_getFilenameVarName _) (pres_appendCode _ _)))
                ((ihPLoop _).1 st3 h3))
              (pres_appendCode st3 _))
    · intro st
      simp only [processChildren]
      split
      · exact goodres_ok_of_pres (pres_refl st)
      · split
        · split
          · exact goodres_pre
              (pres_trans (pres_replaceToken st "") (pres_replaceToken _ "")) (ihChild _)
          · split
            · rename_i er her
              exact goodres_of_error
                (goodres_pre (pres_replaceToken st ", ") (ihBal _ 0)) her
            · rename_i st2 h2
              exact goodres_pre
                (pres_trans (pres_trans (pres_replaceToken st ", ") ((ihBal _ 0).1 st2 h2))
                  (pres_replaceToken st2 ""))
                (ihChild _)
        · split
          · split
            · rename_i er her
              exact goodres_of_error (goodres_pre (pres_appendCode st ", ") (ihTag _)) her
            · rename_i st2 h2
              exact goodres_pre
                (pres_trans (pres_appendCode st ", ") ((ihTag _).1 st2 h2)) (ihChild st2)
          · split
            · exact goodres_pre (pres_processChildTextElement st) (ihChild _)
            · exact goodres_thrown_or st _ (Or.inr rfl)
    · intro st
      simp only [skipToTagEnd]
      split
      · exact goodres_ok_of_pres (pres_refl st)
      · exact goodres_pre (pres_replaceToken st "") (ihSkip _)
    · intro st
      simp only [processJSXTag]
      split
      · rename_i er her
        exact goodres_of_error (goodres_pre (pres_replaceToken st _) (ihIntro _)) her
      · rename_i st1 h1
        have hp1 : Pres st st1 := pres_trans (pres_replaceToken st _) ((ihIntro _).1 st1 h1)
        split
        · rename_i er her
          exact goodres_of_error (goodres_pre hp1 (ihProps st1 st.currentStart)) her
        · rename_i st2 h2
          have hp2 : Pres st st2 := pres_trans hp1 ((ihProps st1 st.currentStart).1 st2 h2)
          split
          · exact goodres_ok_of_pres
              (pres_trans hp2 (pres_trans (pres_replaceToken st2 "") (pres_replaceToken _ ")")))
          · split
            · split
              · rename_i er her
                exact goodres_of_error
                  (goodres_pre (pres_trans hp2 (pres_replaceToken st2 "")) (ihChild _)) her
              · rename_i st3 h3
                have hp3 : Pres st st3 :=
                  pres_trans (pres_trans hp2 (pres_replaceToken st2 "")) ((ihChild _).1 st3 h3)
                split
                · rename_i er her
                  exact goodres_of_error (goodres_pre hp3 (ihSkip st3)) her
                · rename_i st4 h4
                  exact goodres_ok_of_pres
                    (pres_trans (pres_trans hp3 ((ihSkip st3).1 st4 h4))
                      (pres_replaceToken st4 ")"))
            · exact goodres_thrown_or st _ (Or.inl rfl)

theorem getFilenameVarName_eq (st : TState) :
    st.getFilenameVarName = (st.filenameVarName.getD st.freeName,
      { st with filenameVarName := some (st.filenameVarName.getD st.freeName) }) := by
  cases st with
  | mk tok idx out lln lidx fvn code rn fn =>
    unfold TState.getFilenameVarName
    cases fvn with
    | none => rfl
    | some n => rfl

/-- Claim C2: a successful processProps run, started with a line-cursor
state that correctly summarizes the prefix it has already scanned and a
query offset that respects the monotonicity precondition, appends an
object-literal argument of the form comma-brace-attrs-debugprops-brace —
even with zero explicit attributes — where the debug props are exactly
devPropsStr applied to the file-name binding identifier and to 1 plus the
number of newlines strictly before the byte offset of the first token of
the element, and the binding identifier is the lazily allocated file-name
binding (the already-claimed one, or the freshly allocated name on first
use). -/
theorem claim_C2 (fuel : Nat) (st : TState) (start : Nat) (st2 : TState)
    (hidx : st.lastIndex ≤ st.code.length)
    (hline : st.lastLineNumber = 1 + ((st.code.take st.lastIndex).count '\n'))
    (hmono : st.lastIndex ≤ start)
    (hrun : processProps fuel st start = .ok st2) :
    ∃ attrs fname,
      st2.output = st.output ++ ", \x7b" ++ attrs ++
        devPropsStr fname (1 + ((st.code.take start).count '\n')) ++ "\x7d" ∧
      st2.filenameVarName = some fname ∧
      fname = st.filenameVarName.getD st.freeName := by
  cases fuel with
  | zero => simp [processProps] at hrun
  | succ fu =>
    have hp : st.getLineNumberForIndex start =
        (1 + ((st.code.take start).count '\n'),
          { st with
            lastLineNumber := 1 + ((st.code.take start).count '\n'),
            lastIndex := min start st.code.length }) := by
      unfold TState.getLineNumberForIndex
      rw [hline, lineScan_inv st.code st.lastIndex start hidx hmono]
    simp only [processProps, hp, getFilenameVarName_eq] at hrun
    split at hrun
    · cases hrun
      refine ⟨"", st.filenameVarName.getD st.freeName, ?_, rfl, rfl⟩
      show st.output ++ (", \x7b" ++
        devPropsStr (st.filenameVarName.getD st.freeName)
          (1 + ((st.code.take start).count '\n')) ++ "\x7d") = _
      simp only [sapp_assoc, sapp_empty]
    · split at hrun
      · cases hrun
      · rename_i st3 hpl
        cases hrun
        have hpres := (((good_all fu).2.2.2.2.1) _).1 st3 hpl
        rcases hpres with ⟨⟨d, hd⟩, hfn⟩
        refine ⟨d ++ " ", st.filenameVarName.getD st.freeName, ?_, ?_, rfl⟩
        · show st3.output ++ (" " ++
            devPropsStr (st.filenameVarName.getD st.freeName)
              (1 + ((st.code.take start).count '\n')) ++ "\x7d") = _
          rw [hd]
          show st.output ++ ", \x7b" ++ d ++ _ = _
          simp only [sapp_assoc]
        · show st3.filenameVarName = _
          exact hfn _ rfl

/-- Witness for claim C2: a tag with zero explicit attributes (the current
token is already the tag-end marker) still receives the object-literal
argument holding exactly the debug props, with line number 1 and the
freshly claimed file-name binding. -/
theorem claim_C2_witness :
    ∃ attrs fname,
      (⟨[⟨TokKind.jsxTagEnd, ">", 1⟩], 0,
        ", \x7b__self: this, __source: \x7bfileName: _jsxFileName, lineNumber: 1\x7d\x7d",
        1, 0, some "_jsxFileName", [], none, "_jsxFileName"⟩ : TState).output =
        (mkState [⟨TokKind.jsxTagEnd, ">", 1⟩] []).output ++ ", \x7b" ++ attrs ++
          devPropsStr fname
            (1 + (((mkState [⟨TokKind.jsxTagEnd, ">", 1⟩] []).code.take 0).count '\n')) ++
          "\x7d" ∧
      (⟨[⟨TokKind.jsxTagEnd, ">", 1⟩], 0,
        ", \x7b__self: this, __source: \x7bfileName: _jsxFileName, lineNumber: 1\x7d\x7d",
        1, 0, some "_jsxFileName", [], none, "_jsxFileName"⟩ : TState).filenameVarName =
        some fname ∧
      fname = (mkState [⟨TokKind.jsxTagEnd, ">", 1⟩] []).filenameVarName.getD
        (mkState [⟨TokKind.jsxTagEnd, ">", 1⟩] []).freeName :=
  claim_C2 3 (mkState [⟨TokKind.jsxTagEnd, ">", 1⟩] []) 0
    ⟨[⟨TokKind.jsxTagEnd, ">", 1⟩], 0,
      ", \x7b__self: this, __source: \x7bfileName: _jsxFileName, lineNumber: 1\x7d\x7d",
      1, 0, some "_jsxFileName", [], none, "_jsxFileName"⟩
    (by decide) (by decide) (by decide) rfl

/-- Claim C4: the transformer signals exactly two fatal errors, both thrown
as exceptions aborting the pass: every thrown message of a processJSXTag
run is either the malformed-tag-terminator diagnostic or the
unexpected-child-token diagnostic; the second and third conjuncts exhibit
concrete runs reaching each of the two errors (a tag whose terminator after
the props region is an equals token, and an equals token in child
position), and the last conjunct shows an ordinary tag with children being
processed without error. -/
theorem claim_C4 :
    (∀ fuel (st : TState) m, processJSXTag fuel st = .error (.thrown m) →
      m = "Expected either /> or > at the end of the tag." ∨
        m = "Unexpected token when processing JSX children.") ∧
    thrownMsgOf (processJSXTag 20
        (mkState [⟨.jsxTagStart, "<", 0⟩, ⟨.jsxName, "div", 1⟩, ⟨.braceL, "\x7b", 4⟩,
          ⟨.braceR, "\x7d", 5⟩, ⟨.eq, "=", 6⟩] [])) =
      some "Expected either /> or > at the end of the tag." ∧
    thrownMsgOf (processJSXTag 20
        (mkState [⟨.jsxTagStart, "<", 0⟩, ⟨.jsxName, "div", 1⟩, ⟨.jsxTagEnd, ">", 4⟩,
          ⟨.eq, "=", 5⟩] [])) =
      some "Unexpected token when processing JSX children." ∧
    outputOf (processJSXTag 20
        (mkState [⟨.jsxTagStart, "<", 0⟩, ⟨.jsxName, "div", 1⟩, ⟨.jsxTagEnd, ">", 4⟩,
          ⟨.jsxText, "hi", 5⟩, ⟨.jsxTagStart, "<", 7⟩, ⟨.slash, "/", 8⟩,
          ⟨.jsxName, "div", 9⟩, ⟨.jsxTagEnd, ">", 12⟩] [])) =
      some ("React.createElement(" ++ squote ++ "div" ++ squote ++
        ", \x7b__self: this, __source: \x7bfileName: _jsxFileName, lineNumber: 1\x7d\x7d, \"hi\")") := by
  refine ⟨?_, by decide, by decide, by decide⟩
  intro fuel st m h
  exact ((good_all fuel).2.2.2.2.2.2.2.2 st).2 m h

/-- Witness for claim C4: the error-classification conjunct applied to a
concrete run that throws the malformed-tag-terminator diagnostic. -/
theorem claim_C4_witness :
    "Expected either /> or > at the end of the tag." =
        "Expected either /> or > at the end of the tag." ∨
      "Expected either /> or > at the end of the tag." =
        "Unexpected token when processing JSX children." :=
  claim_C4.1 20
    (mkState [⟨.jsxTagStart, "<", 0⟩, ⟨.jsxName, "div", 1⟩, ⟨.braceL, "\x7b", 4⟩,
      ⟨.braceR, "\x7d", 5⟩, ⟨.eq, "=", 6⟩] [])
    "Expected either /> or > at the end of the tag." rfl

theorem sapp_nil_left (a : String) : "" ++ a = a := by
  cases a
  rfl

theorem findIntroEnd_ge (tokens : List Token) :
    ∀ gas s e, findIntroEnd tokens s gas = some e → s ≤ e := by
  intro gas
  induction gas with
  | zero => intro s e h; simp [findIntroEnd] at h
  | succ gas ih =>
    intro s e h
    rw [findIntroEnd] at h
    split at h
    · exact Nat.le_of_succ_le (ih (s + 1) e h)
    · cases h
      exact Nat.le_refl s

theorem introValues_foldl_acc :
    ∀ (l : List Token) (a : String),
      l.foldl (fun acc t => acc ++ t.value) a = a ++ l.foldl (fun acc t => acc ++ t.value) "" := by
  intro l
  induction l with
  | nil => intro a; exact (sapp_empty a).symm
  | cons t rest ih =>
    intro a
    rw [List.foldl_cons, List.foldl_cons, ih (a ++ t.value), ih ("" ++ t.value),
      sapp_nil_left, sapp_assoc]

theorem introValues_self (tokens : List Token) (i : Nat) : introValues tokens i i = "" := by
  simp [introValues]

theorem introValues_cons (tokens : List Token) (i j : Nat) (t : Token)
    (ht : tokens[i]? = some t) (hij : i < j) :
    introValues tokens i j = t.value ++ introValues tokens (i + 1) j := by
  have hlen : i < tokens.length := by
    by_contra hc
    rw [List.getElem?_eq_none (Nat.le_of_not_lt hc)] at ht
    cases ht
  have hidx : tokens[i] = t := by
    have := List.getElem?_eq_getElem hlen
    rw [ht] at this
    exact (Option.some.inj this).symm
  unfold introValues
  rw [List.drop_eq_getElem_cons hlen, hidx]
  have hjj : j - i = (j - (i + 1)) + 1 := by omega
  rw [hjj, List.take_succ_cons, List.foldl_cons, sapp_nil_left,
    introValues_foldl_acc]

theorem introLoop_ok :
    ∀ fuel (st : TState) e r,
      st.index ≤ e →
      (∀ i, st.index ≤ i → i < e → ∃ t, st.tokens[i]? = some t ∧ t.kind ≠ .jsxTagStart) →
      introLoop fuel st e = .ok r →
      r = { st with index := e, output := st.output ++ introValues st.tokens st.index e } := by
  intro fuel
  induction fuel with
  | zero =>
    intro st e r _ _ hrun
    simp [introLoop] at hrun
  | succ fu ih =>
    intro st e r hle hrange hrun
    rw [introLoop] at hrun
    split at hrun
    · rename_i hlt
      split at hrun
      · cases hrun
      · rename_i st2 htok
        obtain ⟨t, ht, htk⟩ := hrange st.index (Nat.le_refl _) hlt
        have hm : st.matches1 .jsxTagStart = false := by
          simp [TState.matches1, kindAt, ht, htk]
        have hst2 : st2 = st.copyToken := by
          cases fu with
          | zero => simp [processToken] at htok
          | succ g =>
            rw [processToken, hm] at htok
            simp at htok
            exact htok.symm
        subst hst2
        have hr := ih st.copyToken e r hlt
          (fun i h1 h2 => hrange i (Nat.le_of_succ_le h1) h2)
          hrun
        rw [hr]
        have hcv : st.currentValue = t.value := by
          simp [TState.currentValue, ht]
        show ({ st with
          index := e,
          output := (st.output ++ st.currentValue) ++ introValues st.tokens (st.index + 1) e } : TState) = _
        rw [hcv, sapp_assoc, ← introValues_cons st.tokens st.index e t ht hlt]
    · rename_i hnlt
      cases hrun
      have he : st.index = e := Nat.le_antisymm hle (Nat.le_of_not_lt hnlt)
      rw [← he, introValues_self, sapp_empty]

/-- Claim C5: when the tag name is exactly one token (the intro scan stops
at the position right after the current name token) and its first character
is lower-case, processTagIntro rewrites the name token as a single-quoted
string literal; when the name is multi-token (dotted) or its single token
does not start with a lower-case character, the intro span is emitted
unchanged, token text for token text. -/
theorem claim_C5 :
    (∀ fuel (st : TState) t r,
      st.tokens[st.index]? = some t →
      findIntroEnd st.tokens (st.index + 1) (st.tokens.length + 2) = some (st.index + 1) →
      startsWithLowerCase t.value = true →
      processTagIntro fuel st = .ok r →
      r = { st with
        index := st.index + 1,
        output := st.output ++ squote ++ t.value ++ squote }) ∧
    (∀ fuel (st : TState) t introEnd r,
      st.tokens[st.index]? = some t →
      findIntroEnd st.tokens (st.index + 1) (st.tokens.length + 2) = some introEnd →
      (introEnd ≠ st.index + 1 ∨ startsWithLowerCase t.value = false) →
      (∀ i, st.index ≤ i → i < introEnd →
        ∃ t2, st.tokens[i]? = some t2 ∧ t2.kind ≠ .jsxTagStart) →
      processTagIntro fuel st = .ok r →
      r = { st with
        index := introEnd,
        output := st.output ++ introValues st.tokens st.index introEnd }) := by
  constructor
  · intro fuel st t r ht hfind hsw hrun
    cases fuel with
    | zero => simp [processTagIntro] at hrun
    | succ fu =>
      have hcv : st.currentValue = t.value := by
        simp [TState.currentValue, ht]
      simp only [processTagIntro, hfind] at hrun
      split at hrun
      · have hr := introLoop_ok fu (st.replaceToken (squote ++ st.currentValue ++ squote))
          (st.index + 1) r (Nat.le_refl _)
          (fun i h1 h2 => absurd (Nat.lt_of_le_of_lt h1 h2) (Nat.lt_irrefl _))
          hrun
        rw [hr, hcv]
        show ({ st with
          index := st.index + 1,
          output := (st.output ++ (squote ++ t.value ++ squote)) ++
            introValues st.tokens (st.index + 1) (st.index + 1) } : TState) = _
        rw [introValues_self, sapp_empty]
        simp only [sapp_assoc]
      · rename_i hc
        exact absurd (by rw [hcv, hsw]; simp) hc
  · intro fuel st t introEnd r ht hfind hne hrange hrun
    cases fuel with
    | zero => simp [processTagIntro] at hrun
    | succ fu =>
      have hcv : st.currentValue = t.value := by
        simp [TState.currentValue, ht]
      simp only [processTagIntro, hfind] at hrun
      split at hrun
      · rename_i hc
        exfalso
        rcases Bool.and_eq_true_iff.mp hc with ⟨h1, h2⟩
        rcases hne with h | h
        · exact h (of_decide_eq_true h1)
        · rw [hcv, h] at h2
          cases h2
      · exact introLoop_ok fu st introEnd r
          (Nat.le_of_succ_le (findIntroEnd_ge st.tokens _ _ _ hfind)) hrange hrun

/-- Witness for claim C5: the lower-case single-token tag name div is
rewritten as a quoted string, and the upper-case single-token tag name Foo
before a self-closing terminator is copied unchanged. -/
theorem claim_C5_witness :
    (({ mkState [⟨TokKind.jsxName, "div", 1⟩, ⟨TokKind.jsxTagEnd, ">", 4⟩] [] with
        index := 1,
        output := "" ++ (squote ++ "div" ++ squote) } : TState) =
      { mkState [⟨TokKind.jsxName, "div", 1⟩, ⟨TokKind.jsxTagEnd, ">", 4⟩] [] with
        index := (mkState [⟨TokKind.jsxName, "div", 1⟩, ⟨TokKind.jsxTagEnd, ">", 4⟩] []).index + 1,
        output := (mkState [⟨TokKind.jsxName, "div", 1⟩, ⟨TokKind.jsxTagEnd, ">", 4⟩] []).output ++
          squote ++ "div" ++ squote }) ∧
    (({ mkState [⟨TokKind.jsxName, "Foo", 1⟩, ⟨TokKind.slash, "/", 4⟩,
          ⟨TokKind.jsxTagEnd, ">", 5⟩] [] with
        index := 1,
        output := "" ++ "Foo" } : TState) =
      { mkState [⟨TokKind.jsxName, "Foo", 1⟩, ⟨TokKind.slash, "/", 4⟩,
          ⟨TokKind.jsxTagEnd, ">", 5⟩] [] with
        index := 1,
        output := (mkState [⟨TokKind.jsxName, "Foo", 1⟩, ⟨TokKind.slash, "/", 4⟩,
          ⟨TokKind.jsxTagEnd, ">", 5⟩] []).output ++
          introValues (mkState [⟨TokKind.jsxName, "Foo", 1⟩, ⟨TokKind.slash, "/", 4⟩,
            ⟨TokKind.jsxTagEnd, ">", 5⟩] []).tokens 0 1 }) :=
  ⟨claim_C5.1 3 (mkState [⟨TokKind.jsxName, "div", 1⟩, ⟨TokKind.jsxTagEnd, ">", 4⟩] [])
      ⟨TokKind.jsxName, "div", 1⟩ _ rfl (by decide) (by decide) rfl,
    claim_C5.2 3 (mkState [⟨TokKind.jsxName, "Foo", 1⟩, ⟨TokKind.slash, "/", 4⟩,
        ⟨TokKind.jsxTagEnd, ">", 5⟩] [])
      ⟨TokKind.jsxName, "Foo", 1⟩ 1 _ rfl (by decide) (Or.inr (by decide))
      (fun i _ h2 => by
        have hi : i = 0 := Nat.lt_one_iff.mp h2
        subst hi
        exact ⟨⟨TokKind.jsxName, "Foo", 1⟩, rfl, by decide⟩)
      rfl⟩

/-- Claim C6: one iteration of the attribute loop. For an attribute written
name-equals-value whose value token is not a brace-open (a raw string
value), the name is emitted as a single-quoted string key exactly when its
text contains a hyphen, and otherwise stays a bare identifier key; the
equals sign becomes a colon and the value is emitted through the
attribute-value formatter. A bare attribute name with no following equals
token is emitted as name-colon-true. -/
theorem claim_C6 :
    (∀ fuel (st : TState) t0 t1 t2,
      st.tokens[st.index]? = some t0 → t0.kind = .jsxName →
      st.tokens[st.index + 1]? = some t1 → t1.kind = .eq →
      st.tokens[st.index + 2]? = some t2 → t2.kind ≠ .braceL →
      propsLoop (fuel + 1) st = propsLoop fuel
        { st with
          index := st.index + 3,
          output := st.output ++
            (if t0.value.contains (Char.ofNat 45) then squote ++ t0.value ++ squote
             else t0.value) ++ ": " ++
            formatJSXStringValueLiteral t2.value ++ formatJSXTextReplacement t2.value ++ "," }) ∧
    (∀ fuel (st : TState) t0,
      st.tokens[st.index]? = some t0 → t0.kind = .jsxName →
      (∀ t1, st.tokens[st.index + 1]? = some t1 → t1.kind ≠ .eq) →
      propsLoop (fuel + 1) st = propsLoop fuel
        { st with
          index := st.index + 1,
          output := st.output ++ t0.value ++ ": true" ++ "," }) := by
  constructor
  · intro fuel st t0 t1 t2 ht0 ht0k ht1 ht1k ht2 ht2k
    have hcv : st.currentValue = t0.value := by
      simp [TState.currentValue, ht0]
    have hm2 : st.matches2 .jsxName .eq = true := by
      simp [TState.matches2, kindAt, ht0, ht0k, ht1, ht1k]
    simp only [propsLoop]
    split
    · rw [hcv]
      by_cases hh : t0.value.contains (Char.ofNat 45) = true
      · rw [if_pos hh]
        split
        · rename_i hbt
          exfalso
          simp [TState.matches1, kindAt, TState.replaceToken, ht2,
            (show st.index + 1 + 1 = st.index + 2 from rfl)] at hbt
          exact ht2k hbt
        · congr 1
          simp [TState.processStringPropValue, TState.currentValue, TState.replaceToken,
            TState.appendCode, ht2, TState.mk.injEq, sapp_assoc,
            (show st.index + 1 + 1 = st.index + 2 from rfl)]
      · rw [if_neg hh]
        split
        · rename_i hbt
          exfalso
          simp [TState.matches1, kindAt, TState.copyToken, TState.replaceToken, ht2,
            (show st.index + 1 + 1 = st.index + 2 from rfl)] at hbt
          exact ht2k hbt
        · congr 1
          simp [TState.copyToken, TState.processStringPropValue, TState.currentValue,
            TState.replaceToken, TState.appendCode, ht0, ht2, hcv, TState.mk.injEq, sapp_assoc,
            (show st.index + 1 + 1 = st.index + 2 from rfl)]
    · rename_i hc
      exact absurd hm2 hc
  · intro fuel st t0 ht0 ht0k hnoteq
    have hcv : st.currentValue = t0.value := by
      simp [TState.currentValue, ht0]
    have hm2 : st.matches2 .jsxName .eq = false := by
      unfold TState.matches2
      cases h1 : st.tokens[st.index + 1]? with
      | none => simp [kindAt, h1]
      | some t1 =>
        have hne : t1.kind ≠ .eq := hnoteq t1 h1
        simp [kindAt, h1, hne]
    have hm1 : st.matches1 .jsxName = true := by
      simp [TState.matches1, kindAt, ht0, ht0k]
    simp only [propsLoop]
    rw [hm2, if_neg Bool.false_ne_true, hm1, if_pos rfl]
    congr 1
    simp [TState.copyToken, TState.replaceToken, TState.appendCode, hcv,
      TState.mk.injEq, sapp_assoc]

/-- Witness for claim C6: the hyphenated attribute name data-x with the raw
string value a-b is emitted as a quoted key, and the bare attribute name
baz is emitted as baz-colon-true. -/
theorem claim_C6_witness :
    (propsLoop 2 (mkState [⟨TokKind.jsxName, "data-x", 0⟩, ⟨TokKind.eq, "=", 6⟩,
        ⟨TokKind.jsxText, "a-b", 8⟩] []) = propsLoop 1
      { mkState [⟨TokKind.jsxName, "data-x", 0⟩, ⟨TokKind.eq, "=", 6⟩,
          ⟨TokKind.jsxText, "a-b", 8⟩] [] with
        index := (mkState [⟨TokKind.jsxName, "data-x", 0⟩, ⟨TokKind.eq, "=", 6⟩,
          ⟨TokKind.jsxText, "a-b", 8⟩] []).index + 3,
        output := (mkState [⟨TokKind.jsxName, "data-x", 0⟩, ⟨TokKind.eq, "=", 6⟩,
            ⟨TokKind.jsxText, "a-b", 8⟩] []).output ++
          (if ("data-x" : String).contains (Char.ofNat 45) then squote ++ "data-x" ++ squote
           else "data-x") ++ ": " ++
          formatJSXStringValueLiteral "a-b" ++ formatJSXTextReplacement "a-b" ++ "," }) ∧
    (propsLoop 2 (mkState [⟨TokKind.jsxName, "baz", 0⟩, ⟨TokKind.slash, "/", 4⟩] []) =
      propsLoop 1
        { mkState [⟨TokKind.jsxName, "baz", 0⟩, ⟨TokKind.slash, "/", 4⟩] [] with
          index := (mkState [⟨TokKind.jsxName, "baz", 0⟩, ⟨TokKind.slash, "/", 4⟩] []).index + 1,
          output := (mkState [⟨TokKind.jsxName, "baz", 0⟩,
            ⟨TokKind.slash, "/", 4⟩] []).output ++ "baz" ++ ": true" ++ "," }) :=
  ⟨claim_C6.1 1 (mkState [⟨TokKind.jsxName, "data-x", 0⟩, ⟨TokKind.eq, "=", 6⟩,
      ⟨TokKind.jsxText, "a-b", 8⟩] []) ⟨TokKind.jsxName, "data-x", 0⟩ ⟨TokKind.eq, "=", 6⟩
      ⟨TokKind.jsxText, "a-b", 8⟩ rfl rfl rfl rfl rfl (by decide),
    claim_C6.2 1 (mkState [⟨TokKind.jsxName, "baz", 0⟩, ⟨TokKind.slash, "/", 4⟩] [])
      ⟨TokKind.jsxName, "baz", 0⟩ rfl rfl
      (fun t1 h => by
        have ht : (⟨TokKind.slash, "/", 4⟩ : Token) = t1 := Option.some.inj h
        rw [← ht]
        decide)⟩

/-- Claim C7: in child position, an empty interpolation (open brace
immediately followed by close brace) has both delimiter tokens removed and
contributes no argument (the output is unchanged and the cursor skips both
tokens); a non-empty interpolation has its opening brace replaced by a
comma separator, its interior delegated to the balanced-region processor
and its closing brace removed.  The closed conjuncts run an empty and a
one-token interpolation child list to completion, producing no argument and
exactly one argument respectively. -/
theorem claim_C7 :
    (∀ fuel (st : TState), st.matches2 .braceL .braceR = true →
      processChildren (fuel + 1) st =
        processChildren fuel { st with index := st.index + 2 }) ∧
    (∀ fuel (st st3 : TState), st.matches1 .braceL = true →
      st.matches2 .braceL .braceR = false →
      processBalancedCode fuel (st.replaceToken ", ") 0 = .ok st3 →
      processChildren (fuel + 1) st = processChildren fuel (st3.replaceToken "")) ∧
    outputOf (processChildren 10 (mkState [⟨TokKind.braceL, "\x7b", 0⟩,
      ⟨TokKind.braceR, "\x7d", 1⟩, ⟨TokKind.jsxTagStart, "<", 2⟩,
      ⟨TokKind.slash, "/", 3⟩] [])) = some "" ∧
    outputOf (processChildren 10 (mkState [⟨TokKind.braceL, "\x7b", 0⟩,
      ⟨TokKind.other, "x", 1⟩, ⟨TokKind.braceR, "\x7d", 2⟩,
      ⟨TokKind.jsxTagStart, "<", 3⟩, ⟨TokKind.slash, "/", 4⟩] [])) = some ", x" := by
  refine ⟨?_, ?_, by decide, by decide⟩
  · intro fuel st h
    have hk : kindAt st.tokens st.index = some .braceL := by
      have hh : kindAt st.tokens st.index = some TokKind.braceL ∧
          kindAt st.tokens (st.index + 1) = some TokKind.braceR := by
        simpa [TState.matches2] using h
      exact hh.1
    have h1 : st.matches1 .braceL = true := by
      simp [TState.matches1, hk]
    have h0 : st.matches2 .jsxTagStart .slash = false := by
      simp [TState.matches2, hk]
    simp only [processChildren]
    rw [h0, if_neg Bool.false_ne_true, h1, if_pos rfl, h, if_pos rfl]
    congr 1
    simp [TState.replaceToken, TState.mk.injEq, sapp_empty,
      (show st.index + 1 + 1 = st.index + 2 from rfl)]
  · intro fuel st st3 h1 h2 hbal
    have hk : kindAt st.tokens st.index = some .braceL := by
      exact of_decide_eq_true (by simpa [TState.matches1] using h1)
    have h0 : st.matches2 .jsxTagStart .slash = false := by
      simp [TState.matches2, hk]
    simp only [processChildren]
    rw [h0, if_neg Bool.false_ne_true, h1, if_pos rfl, h2, if_neg Bool.false_ne_true, hbal]

/-- Witness for claim C7: the empty interpolation before a closing tag, and
a one-token interpolation whose balanced interior was processed to the
comma-prefixed argument text. -/
theorem claim_C7_witness :
    (processChildren 10 (mkState [⟨TokKind.braceL, "\x7b", 0⟩, ⟨TokKind.braceR, "\x7d", 1⟩,
        ⟨TokKind.jsxTagStart, "<", 2⟩, ⟨TokKind.slash, "/", 3⟩] []) =
      processChildren 9
        { mkState [⟨TokKind.braceL, "\x7b", 0⟩, ⟨TokKind.braceR, "\x7d", 1⟩,
            ⟨TokKind.jsxTagStart, "<", 2⟩, ⟨TokKind.slash, "/", 3⟩] [] with
          index := (mkState [⟨TokKind.braceL, "\x7b", 0⟩, ⟨TokKind.braceR, "\x7d", 1⟩,
            ⟨TokKind.jsxTagStart, "<", 2⟩, ⟨TokKind.slash, "/", 3⟩] []).index + 2 }) ∧
    (processChildren 10 (mkState [⟨TokKind.braceL, "\x7b", 0⟩, ⟨TokKind.other, "x", 1⟩,
        ⟨TokKind.braceR, "\x7d", 2⟩, ⟨TokKind.jsxTagStart, "<", 3⟩,
        ⟨TokKind.slash, "/", 4⟩] []) =
      processChildren 9
        ((⟨[⟨TokKind.braceL, "\x7b", 0⟩, ⟨TokKind.other, "x", 1⟩, ⟨TokKind.braceR, "\x7d", 2⟩,
            ⟨TokKind.jsxTagStart, "<", 3⟩, ⟨TokKind.slash, "/", 4⟩], 2, "" ++ ", " ++ "x",
          1, 0, none, [], none, "_jsxFileName"⟩ : TState).replaceToken "")) :=
  ⟨claim_C7.1 9 (mkState [⟨TokKind.braceL, "\x7b", 0⟩, ⟨TokKind.braceR, "\x7d", 1⟩,
      ⟨TokKind.jsxTagStart, "<", 2⟩, ⟨TokKind.slash, "/", 3⟩] []) (by decide),
    claim_C7.2.1 9 (mkState [⟨TokKind.braceL, "\x7b", 0⟩, ⟨TokKind.other, "x", 1⟩,
        ⟨TokKind.braceR, "\x7d", 2⟩, ⟨TokKind.jsxTagStart, "<", 3⟩,
        ⟨TokKind.slash, "/", 4⟩] [])
      ⟨[⟨TokKind.braceL, "\x7b", 0⟩, ⟨TokKind.other, "x", 1⟩, ⟨TokKind.braceR, "\x7d", 2⟩,
        ⟨TokKind.jsxTagStart, "<", 3⟩, ⟨TokKind.slash, "/", 4⟩], 2, "" ++ ", " ++ "x",
        1, 0, none, [], none, "_jsxFileName"⟩
      (by decide) (by decide) rfl⟩

/-- Claim C10: the lower-case test compares the first character with its
toLowerCase image, so over the ASCII range a single-character tag name
passes the test exactly when the character is not an upper-case letter —
digits, underscore and the dollar sign all pass; consequently the tag
name _Foo is rewritten into a factory call whose first argument is the
single-quoted string _Foo, not the identifier _Foo. -/
theorem claim_C10 :
    (∀ n, n < 128 → (startsWithLowerCase (String.mk [Char.ofNat n]) = true ↔
      ¬(65 ≤ n ∧ n ≤ 90))) ∧
    startsWithLowerCase "_Foo" = true ∧
    startsWithLowerCase "$x" = true ∧
    startsWithLowerCase "0a" = true ∧
    outputOf (processJSXTag 9 (mkState [⟨TokKind.jsxTagStart, "<", 0⟩,
      ⟨TokKind.jsxName, "_Foo", 1⟩, ⟨TokKind.slash, "/", 5⟩,
      ⟨TokKind.jsxTagEnd, ">", 6⟩] ("<_Foo/>").data)) =
      some ("React.createElement(" ++ squote ++ "_Foo" ++ squote ++
        ", \x7b__self: this, __source: \x7bfileName: _jsxFileName, lineNumber: 1\x7d\x7d)") := by
  refine ⟨by decide, by decide, by decide, by decide, by decide⟩

/-- Witness for claim C10: the underscore character (code 95) is not an
upper-case letter and passes the lower-case test. -/
theorem claim_C10_witness :
    startsWithLowerCase (String.mk [Char.ofNat 95]) = true ↔ ¬(65 ≤ 95 ∧ 95 ≤ 90) :=
  claim_C10.1 95 (by decide)
